import Mathlib

/-!
Verification of the probabilistic helper library and the hyperparameter-search
configuration modules of the GMM repository.

The Python code operates on lists of `torch` tensors.  Since every claim is
about exact real arithmetic on the flattened tensor data, a tensor is embedded
as its flattened data, a `List ℝ`, and a parameter list (one tensor per layer)
as a `List (List ℝ)`.  Elementwise `torch` operations become `List.map` and
`List.zipWith`; `torch.cat([t.view(-1) for t in l])` becomes `List.join`;
`torch.sum` becomes `List.sum`.  Random draws from `torch.normal` /RNG
`generator` objects are embedded by an explicit stream `g : ℕ → ℝ` of draws
together with a counter that advances exactly as the Python generator state
does.  Out-of-range Python indexing (which raises) only occurs outside the
shape hypotheses of the claims; loops that index several lists in lockstep are
embedded as simultaneous structural recursion.
-/

namespace GMM

noncomputable section

/-- A flattened tensor. -/
abbrev Vec := List ℝ

/-! ### Elementwise tensor operations (torch semantics, exact arithmetic) -/

/-- Elementwise `torch.exp`. -/
def vexp (v : Vec) : Vec := v.map Real.exp

/-- Elementwise `torch.log`. -/
def vlog (v : Vec) : Vec := v.map Real.log

/-- Elementwise `torch.sqrt`. -/
def vsqrt (v : Vec) : Vec := v.map Real.sqrt

/-- Elementwise negation `-t`. -/
def vneg (v : Vec) : Vec := v.map (fun x => -x)

/-- Elementwise tensor addition. -/
def vadd (a b : Vec) : Vec := List.zipWith (· + ·) a b

/-- Elementwise tensor subtraction. -/
def vsub (a b : Vec) : Vec := List.zipWith (· - ·) a b

/-- Elementwise tensor multiplication. -/
def vmul (a b : Vec) : Vec := List.zipWith (· * ·) a b

/-- Elementwise tensor division. -/
def vdiv (a b : Vec) : Vec := List.zipWith (· / ·) a b

/-- Elementwise `t ** 2`. -/
def vpow2 (v : Vec) : Vec := v.map (fun x => x ^ 2)

/-- Broadcast `c * t` for a scalar `c`. -/
def vsmul (c : ℝ) (v : Vec) : Vec := v.map (fun x => c * x)

/-- Broadcast `t * c` for a scalar `c` on the right. -/
def vmulScalarR (v : Vec) (c : ℝ) : Vec := v.map (fun x => x * c)

/-- Broadcast `c + t` for a scalar `c`. -/
def vaddScalar (c : ℝ) (v : Vec) : Vec := v.map (fun x => c + x)

/-- Broadcast `t + c` for a scalar `c` on the right. -/
def vaddScalarR (v : Vec) (c : ℝ) : Vec := v.map (fun x => x + c)

/-- Broadcast `t - c` for a scalar `c`. -/
def vsubScalarR (v : Vec) (c : ℝ) : Vec := v.map (fun x => x - c)

/-- Broadcast `t / c` for a scalar `c`. -/
def vdivScalar (v : Vec) (c : ℝ) : Vec := v.map (fun x => x / c)

/-- Elementwise `torch.clamp(t, min=c)`. -/
def vclampMin (v : Vec) (c : ℝ) : Vec := v.map (fun x => max x c)

/-- Sum `torch.sum` over all elements. -/
def vsum (v : Vec) : ℝ := v.sum

/-- The norm `torch.norm(t, p=2)`. -/
def vnorm2 (v : Vec) : ℝ := Real.sqrt (vsum (vpow2 v))

/-- Flattening `torch.cat([t.view(-1) for t in ts])`. -/
def flattenCat (ts : List Vec) : Vec := ts.flatten

/-- Softplus `torch.nn.functional.softplus` on one element. -/
def softplusR (x : ℝ) : ℝ := Real.log (1 + Real.exp x)

/-- Elementwise `F.softplus`. -/
def vsoftplus (v : Vec) : Vec := v.map softplusR

/-- Pointwise combination of four equally shaped tensors. -/
def zipWith4 (f : ℝ → ℝ → ℝ → ℝ → ℝ) : Vec → Vec → Vec → Vec → Vec
  | a :: as, b :: bs, c :: cs, d :: ds => f a b c d :: zipWith4 f as bs cs ds
  | _, _, _, _ => []

/-- Pointwise combination of three equally shaped tensors. -/
def zipWith3 (f : ℝ → ℝ → ℝ → ℝ) : Vec → Vec → Vec → Vec
  | a :: as, b :: bs, c :: cs => f a b c :: zipWith3 f as bs cs
  | _, _, _ => []

/-! ### `prob_utils.kl_diag_gaussians` -/

/-- Source embedding of `prob_utils.kl_diag_gaussians`:
flatten and concatenate the four tensor lists, then evaluate
`0.5 * torch.sum(-1 + (logvar_a.exp() + (mean_b - mean_a).pow(2)) / logvar_b.exp()
+ logvar_b - logvar_a)` with torch broadcasting. -/
def kl_diag_gaussians (mean_a logvar_a mean_b logvar_b : List Vec) : ℝ :=
  let mean_a_flat := flattenCat mean_a
  let logvar_a_flat := flattenCat logvar_a
  let mean_b_flat := flattenCat mean_b
  let logvar_b_flat := flattenCat logvar_b
  0.5 * vsum (vsub (vadd (vaddScalar (-1)
      (vdiv (vadd (vexp logvar_a_flat) (vpow2 (vsub mean_b_flat mean_a_flat)))
            (vexp logvar_b_flat)))
      logvar_b_flat) logvar_a_flat)

/-! ### `prob_utils.kl_diag_gauss_with_standard_gauss` -/

/-- Source embedding of `prob_utils.kl_diag_gauss_with_standard_gauss`:
`-0.5 * torch.sum(1 + logvar - mean.pow(2) - var)` on the flattened data. -/
def kl_diag_gauss_with_standard_gauss (mean logvar : List Vec) : ℝ :=
  let mean_flat := flattenCat mean
  let logvar_flat := flattenCat logvar
  let var_flat := vexp logvar_flat
  (-0.5) * vsum (vsub (vsub (vaddScalar 1 logvar_flat) (vpow2 mean_flat)) var_flat)

/-! ### `prob_utils.square_wasserstein_2` -/

/-- Source embedding of `prob_utils.square_wasserstein_2`:
`torch.norm(mean_a - mean_b, p=2) ** 2
+ (var_a + var_b - 2 * torch.sqrt(var_a * var_b)).sum()` on the flattened
data, where `var = logvar.exp()`. -/
def square_wasserstein_2 (mean_a logvar_a mean_b logvar_b : List Vec) : ℝ :=
  let mean_a_flat := flattenCat mean_a
  let var_a_flat := vexp (flattenCat logvar_a)
  let mean_b_flat := flattenCat mean_b
  let var_b_flat := vexp (flattenCat logvar_b)
  vnorm2 (vsub mean_a_flat mean_b_flat) ^ 2 +
    vsum (vsub (vadd var_a_flat var_b_flat) (vsmul 2 (vsqrt (vmul var_a_flat var_b_flat))))

/-! ### Sampling with an explicit generator

`torch.normal(torch.zeros_like(t), 1., generator=g)` returns one fresh draw of
the generator per element of `t`; `torch.normal(torch.tensor(0.), 1.,
generator=g)` returns a single fresh scalar draw.  The generator is embedded
as a stream `g : ℕ → ℝ` of draws and a counter giving the next unread
position. -/

/-- The tensor of draws `g k, g (k+1), ..., g (k+n-1)` taken by
`torch.normal(zeros(n), 1., generator)` when the counter is at `k`. -/
def normalVec (g : ℕ → ℝ) (k n : ℕ) : Vec := (List.range n).map (fun j => g (k + j))

/-- Source embedding of `prob_utils.sample_diag_gauss`.  For each parameter
tensor, `eps = torch.normal(torch.zeros_like(m), 1., generator)`; the
non-radial branch appends `m + eps * std[i]`, the radial branch additionally
draws a scalar `r` and appends `m + std[i] * r * eps / torch.norm(eps, p=2)`.
The counter records how many draws the generator has produced. -/
def sample_diag_gauss (g : ℕ → ℝ) (is_radial : Bool) : ℕ → List Vec → List Vec → List Vec
  | _, [], _ => []
  | _, _ :: _, [] => []
  | k, m :: ms, s :: ss =>
    let eps := normalVec g k m.length
    if is_radial = false then
      vadd m (vmul eps s) :: sample_diag_gauss g is_radial (k + m.length) ms ss
    else
      let r := g (k + m.length)
      vadd m (vdivScalar (vmul (vmulScalarR s r) eps) (vnorm2 eps)) ::
        sample_diag_gauss g is_radial (k + m.length + 1) ms ss

/-- Position of the generator counter when the radial branch of
`sample_diag_gauss` reaches parameter tensor `i`, starting from counter `k`:
each earlier tensor consumed its element count plus one radius draw. -/
def radialOffset (k : ℕ) : List Vec → ℕ → ℕ
  | _, 0 => k
  | [], _ + 1 => k
  | m :: ms, i + 1 => radialOffset (k + m.length + 1) ms i

/-- Source embedding of `prob_utils.decode_and_sample_diag_gauss`.  The
standard deviation is decoded from `rho` per tensor
(`torch.exp(0.5 * rho[i])` when `logvar_enc`, otherwise `F.softplus(rho[i])`)
and the sample is produced exactly as in `sample_diag_gauss`, with
`eps = torch.normal(torch.zeros_like(std), 1., generator)`. -/
def decode_and_sample_diag_gauss (g : ℕ → ℝ) (logvar_enc is_radial : Bool) :
    ℕ → List Vec → List Vec → List Vec
  | _, [], _ => []
  | _, _ :: _, [] => []
  | k, m :: ms, ρ :: ρs =>
    let std := if logvar_enc then vexp (vsmul 0.5 ρ) else vsoftplus ρ
    let eps := normalVec g k std.length
    if is_radial = false then
      vadd m (vmul eps std) ::
        decode_and_sample_diag_gauss g logvar_enc is_radial (k + std.length) ms ρs
    else
      let r := g (k + std.length)
      vadd m (vdivScalar (vmul (vmulScalarR std r) eps) (vnorm2 eps)) ::
        decode_and_sample_diag_gauss g logvar_enc is_radial (k + std.length + 1) ms ρs

/-- Source embedding of `prob_utils.decode_diag_gauss`.  The standard
deviation list is always built; the variance (`std ** 2`) and the log-variance
(`rho` itself under `logvar_enc`, else `2 * torch.log(std)`) are attached
according to the `return_var` / `return_logvar` flags of the Python return
tuple. -/
def decode_diag_gauss (rho : List Vec) (logvar_enc return_var return_logvar : Bool) :
    List Vec × Option (List Vec) × Option (List Vec) :=
  let ret_std := rho.map (fun ρ => if logvar_enc then vexp (vsmul 0.5 ρ) else vsoftplus ρ)
  let ret_var := rho.map (fun ρ =>
    vpow2 (if logvar_enc then vexp (vsmul 0.5 ρ) else vsoftplus ρ))
  let ret_logvar := rho.map (fun ρ =>
    if logvar_enc then ρ else vsmul 2 (vlog (vsoftplus ρ)))
  (ret_std, if return_var then some ret_var else none,
    if return_logvar then some ret_logvar else none)

/-! ### `prob_utils.kl_radial_bnn_with_diag_gauss` -/

/-- The density `torch.distributions.Normal(μ, σ).log_prob(x)` on one element:
`-(x - μ)² / (2σ²) - log σ - log √(2π)`. -/
def normalLogProb (μ σ x : ℝ) : ℝ :=
  -((x - μ) ^ 2) / (2 * σ ^ 2) - Real.log σ - Real.log (Real.sqrt (2 * Real.pi))

/-- The inner loop of `kl_radial_bnn_with_diag_gauss`: for each `i`,
`Normal(mean_b[i], std_b[i]).log_prob(sample[i]).sum()`, accumulated over all
parameter tensors. -/
def logProbSumList (mean_b std_b sample : List Vec) : ℝ :=
  ((List.range mean_b.length).map (fun i =>
    (zipWith3 normalLogProb (mean_b.getD i []) (std_b.getD i []) (sample.getD i [])).sum)).sum

/-- Number of generator draws consumed by one radial call of
`sample_diag_gauss`: the elements of each parameter tensor plus one scalar
radius per tensor. -/
def radialDrawCount (mean : List Vec) : ℕ := (mean.map (fun m => m.length + 1)).sum

/-- The Monte-Carlo loop of `kl_radial_bnn_with_diag_gauss`: `n` rounds, each
drawing one radial sample (advancing the generator) and accumulating the
log-probabilities of the sample under the diagonal Gaussian `p_b`. -/
def ceLoop (g : ℕ → ℝ) (mean_a std_a mean_b std_b : List Vec) : ℕ → ℕ → ℝ
  | _, 0 => 0
  | k, n + 1 =>
    let sample := sample_diag_gauss g true k mean_a std_a
    logProbSumList mean_b std_b sample +
      ceLoop g mean_a std_a mean_b std_b (k + radialDrawCount mean_a) n

/-- Source embedding of `prob_utils.kl_radial_bnn_with_diag_gauss`:
`entropy = -torch.log(torch.cat([t.view(-1) for t in std_a])).sum()`, the
cross-entropy accumulates `ce_sample_size` Monte-Carlo rounds and is divided
by `ce_sample_size`, and the result is `entropy - cross_entropy`. -/
def kl_radial_bnn_with_diag_gauss (g : ℕ → ℝ) (k : ℕ)
    (mean_a std_a mean_b std_b : List Vec) (ce_sample_size : ℕ) : ℝ :=
  let entropy := -vsum (vlog (flattenCat std_a))
  let cross_entropy := ceLoop g mean_a std_a mean_b std_b k ce_sample_size
  entropy - cross_entropy / ce_sample_size

/-! ### `prob_utils.sample_diag_gaus_from_hnet` and `prob_utils.extract_mean_std` -/

/-- The sampling loop of `sample_diag_gaus_from_hnet`: for each `i`,
`std = torch.exp(0.5 * logvar[i])` and `Normal(mu[i], std).rsample()`, i.e.
`mu[i] + eps * std` for a fresh standard-normal `eps` of the shape of
`mu[i]`. -/
def hnetSampleLoop (g : ℕ → ℝ) : ℕ → List Vec → List Vec → List Vec
  | _, [], _ => []
  | _, _ :: _, [] => []
  | k, m :: ms, lv :: lvs =>
    let std := vexp (vsmul 0.5 lv)
    let eps := normalVec g k m.length
    vadd m (vmul eps std) :: hnetSampleLoop g (k + m.length) ms lvs

/-- Source embedding of `prob_utils.sample_diag_gaus_from_hnet`.  The
`assert (len(hnet_outputs) % 2 == 0)` is embedded as `none` (an
`AssertionError`); otherwise `mu = hnet_outputs[n:]` and
`logvar = hnet_outputs[:n]` with `n = len(hnet_outputs) // 2`. -/
def sample_diag_gaus_from_hnet (g : ℕ → ℝ) (hnet_outputs : List Vec) :
    Option (List Vec) :=
  if hnet_outputs.length % 2 = 0 then
    let n := hnet_outputs.length / 2
    let mu := hnet_outputs.drop n
    let logvar := hnet_outputs.take n
    some (hnetSampleLoop g 0 mu logvar)
  else none

/-- Source embedding of `prob_utils.extract_mean_std`.  The even-length
assertion is embedded as `none`; otherwise `mean = hnet_outputs[n:]`,
`logvar = hnet_outputs[:n]`, and
`std = [torch.exp(0.5 * logvar[i]) for i in range(n)]`, with the log-variance
attached when `return_logvar` is set. -/
def extract_mean_std (hnet_outputs : List Vec) (return_logvar : Bool) :
    Option (List Vec × List Vec × Option (List Vec)) :=
  if hnet_outputs.length % 2 = 0 then
    let n := hnet_outputs.length / 2
    let mean := hnet_outputs.drop n
    let logvar := hnet_outputs.take n
    let std := (List.range n).map (fun i => vexp (vsmul 0.5 (logvar.getD i [])))
    some (mean, std, if return_logvar then some logvar else none)
  else none

/-! ### `prob_utils.compute_kl` and `prob_utils.kl_gauss`

The hyperparameters `lamb` and `initial_prior_var` are Python numbers used
both in comparisons (`lamb != 1`) and in formulas; they are embedded as
rationals coerced into ℝ so that the comparison stays decidable. -/

/-- The elementwise tensor `trace_term + mean_term + det_term - 1` shared by
both branches of `prob_utils.compute_kl`, with
`trace_term = torch.exp(exp_var - prior_exp_var)`,
`det_term = prior_exp_var - exp_var`, and `mean_term` depending on whether
`lamb != 1` (the clamped prior-precision interpolation, with
`np.exp(1.0 * initial_prior_var)`) or not (`(mean - prior_mean)**2 *
torch.exp(-prior_exp_var)`). -/
def compute_kl_elem (mean exp_var prior_mean prior_exp_var : Vec)
    (lamb initial_prior_var : ℚ) : Vec :=
  let trace_term := vexp (vsub exp_var prior_exp_var)
  let mean_term :=
    if lamb ≠ 1 then
      vmul (vpow2 (vsub mean prior_mean))
        (vaddScalarR
          (vsmul (lamb : ℝ)
            (vclampMin
              (vsubScalarR (vexp (vneg prior_exp_var))
                (1 / Real.exp ((initial_prior_var : ℝ))))
              0))
          (1 / Real.exp ((initial_prior_var : ℝ))))
    else
      vmul (vpow2 (vsub mean prior_mean)) (vexp (vneg prior_exp_var))
  let det_term := vsub prior_exp_var exp_var
  vsubScalarR (vadd (vadd trace_term mean_term) det_term) 1

/-- Source embedding of `prob_utils.compute_kl`.  With `sum=True` the Python
function returns the scalar `0.5 * torch.sum(...)` (`Sum.inl`), otherwise the
tensor `0.5 * (...)` (`Sum.inr`). -/
def compute_kl (mean exp_var prior_mean prior_exp_var : Vec) (sum : Bool)
    (lamb initial_prior_var : ℚ) : ℝ ⊕ Vec :=
  if sum then
    Sum.inl (0.5 *
      vsum (compute_kl_elem mean exp_var prior_mean prior_exp_var lamb initial_prior_var))
  else
    Sum.inr (vsmul 0.5
      (compute_kl_elem mean exp_var prior_mean prior_exp_var lamb initial_prior_var))

/-- Source embedding of `prob_utils.kl_gauss`:
`0.5 * (logvar_b - logvar_a)
+ 0.5 * (torch.exp(logvar_a) + (mean_a - mean_b) ** 2) / torch.exp(logvar_b)
- 0.5`, elementwise. -/
def kl_gauss (mean_a logvar_a mean_b logvar_b : Vec) : Vec :=
  vsubScalarR
    (vadd (vsmul 0.5 (vsub logvar_b logvar_a))
      (vdiv (vsmul 0.5 (vadd (vexp logvar_a) (vpow2 (vsub mean_a mean_b))))
        (vexp logvar_b)))
    0.5

/-- The per-element Gaussian KL stated by the specification:
`0.5 * (exp(logvar_a - logvar_b) + (mean_a - mean_b)² * exp(-logvar_b)
+ logvar_b - logvar_a - 1)`.  Written from the claim, to be compared with
the two source implementations `kl_gauss` and `compute_kl`. -/
def klGaussSpec (m_a l_a m_b l_b : ℝ) : ℝ :=
  0.5 * (Real.exp (l_a - l_b) + (m_a - m_b) ^ 2 * Real.exp (-l_b) + l_b - l_a - 1)

/-! ### Gaussian mixtures -/

/-- A Gaussian mixture as passed to `kl_mixture_gauss` and
`upperbound_kl_mixture_gauss`: a triple of the per-component mean tensors
(slot 0), the per-component variance or log-variance tensors (slot 1), and the
coefficient tensor (slot 2, one scalar per component). -/
structure MixtureGauss where
  means : List Vec
  logvars : List Vec
  coefLogits : Vec

/-- Softmax `torch.nn.functional.softmax(x, dim=0)` on a one-dimensional tensor in
exact arithmetic: `softmax(x)_i = exp x_i / ∑ j, exp x_j`. -/
def softmaxV (v : Vec) : Vec := v.map (fun a => Real.exp a / vsum (vexp v))

/-- Source embedding of `prob_utils.compute_coef`: start from `[1]`, append
`(i + 1) * 1000` for `i in range(num_component - 1)`, then reverse. -/
def compute_coef (num_component : ℕ) : List ℤ :=
  let result : List ℤ := [1]
  let result := result ++ (List.range (num_component - 1)).map (fun i => ((i : ℤ) + 1) * 1000)
  result.reverse

/-- Source embedding of `prob_utils.kl_mixture_gauss`: loop `i` over
`range(gauss_mixture)`, accumulating
`torch.sum(coff_a[i] * (log coff_a[i] - log coff_b[i]))` and
`torch.sum(coff_a[i] * compute_kl(mean_a[i], var_a[i], mean_b[i], var_b[i],
sum=False, lamb=lamb))`.  The coefficients are used as given (no softmax). -/
def kl_mixture_gauss (distribution_a distribution_b : MixtureGauss)
    (gauss_mixture : ℕ) (lamb : ℚ) : ℝ :=
  (List.range gauss_mixture).foldl (fun kl i =>
    kl + distribution_a.coefLogits.getD i 0 *
          (Real.log (distribution_a.coefLogits.getD i 0) -
            Real.log (distribution_b.coefLogits.getD i 0))
       + Sum.elim
          (fun r => distribution_a.coefLogits.getD i 0 * r)
          (fun v => vsum (vsmul (distribution_a.coefLogits.getD i 0) v))
          (compute_kl (distribution_a.means.getD i []) (distribution_a.logvars.getD i [])
            (distribution_b.means.getD i []) (distribution_b.logvars.getD i [])
            false lamb 0)) 0

/-- Source embedding of `prob_utils.upperbound_kl_mixture_gauss`:
`num_component = len(mixture_gauss_a[0])`, the coefficients are the softmax
(dim 0) of slot 2 of each mixture, `compute_coef` is called and its result
bound but never used, and the loop accumulates the coefficient KL term and
`torch.sum(list_coef_a[i] * kl_gauss(...))`. -/
def upperbound_kl_mixture_gauss (mixture_gauss_a mixture_gauss_b : MixtureGauss) : ℝ :=
  let num_component := mixture_gauss_a.means.length
  let list_coef_a := softmaxV mixture_gauss_a.coefLogits
  let list_coef_b := softmaxV mixture_gauss_b.coefLogits
  let coef := compute_coef num_component
  (List.range num_component).foldl (fun kl i =>
    kl + list_coef_a.getD i 0 *
          (Real.log (list_coef_a.getD i 0) - Real.log (list_coef_b.getD i 0))
       + vsum (vsmul (list_coef_a.getD i 0)
          (kl_gauss (mixture_gauss_a.means.getD i []) (mixture_gauss_a.logvars.getD i [])
            (mixture_gauss_b.means.getD i []) (mixture_gauss_b.logvars.getD i [])))) 0

/-! ### `prob_utils.sample_gumbel`

`sample_gumbel` manipulates rank-4 (and, in its `is_bias` branch, rank-5)
tensors through `torch` primitives whose exact value semantics are irrelevant
to the claim about it, which concerns control and data flow: the function
returns from inside the first loop iteration.  The tensor type and the
`torch` primitives are therefore abstracted into a structure of operations,
and the embedding of `sample_gumbel` is a faithful transcription of the
Python statement sequence over those operations.  The claim is settled for
every interpretation of the operations at once. -/

/-- The `torch` primitives used by `sample_gumbel` over an abstract tensor
type `T`.  `trand` covers `torch.rand(size=...)` on the ambient global RNG;
`tlen` is Python `len` on a tensor (its size along dimension 0). -/
structure TensorOps (T : Type) where
  texp : T → T
  tsoftplus : T → T
  tsmul : ℝ → T → T
  taddScalar : T → ℝ → T
  tadd : T → T → T
  tneg : T → T
  tlog : T → T
  tsoftmax : ℕ → T → T
  unsqueeze : ℕ → T → T
  tile : List ℕ → T → T
  trand : List ℕ → T
  tlen : T → ℕ

/-- The three ways `prob_utils.sample_gumbel` can come back: an
`AssertionError` from the length assert, the initial empty `sample` list
(when `mean` is empty the loop body never runs), or a tensor returned from
inside the loop. -/
inductive GumbelResult (T : Type) where
  | assertError
  | emptyList
  | tensor (t : T)

/-- Source embedding of `prob_utils.sample_gumbel`.  After the length
assertion, the loop over `range(len(mean))` is entered; its body ends in an
unconditional `return`, so only the branch for index 0 is ever executed and
the trailing `return sample` is reached only when `mean` is empty.  The
`match` arm for a non-empty `mean` with an empty `rho` is unreachable under
the assertion guard. -/
def sample_gumbel {T : Type} (ops : TensorOps T) (logvar_enc : Bool)
    (mean rho : List T) (coef : T) (tau : ℝ)
    (gauss_mixture K d_in d_out : ℕ) (is_bias : Bool) : GumbelResult T :=
  if mean.length = rho.length ∧ mean.length = ops.tlen coef then
    match mean, rho with
    | [], _ => .emptyList
    | _ :: _, ρ :: _ =>
      let _std := if logvar_enc then ops.texp (ops.tsmul 0.5 ρ) else ops.tsoftplus ρ
      let zero_term : List ℕ :=
        if is_bias = false then [K, gauss_mixture, d_in, d_out]
        else [K, gauss_mixture, 1, d_out]
      let coef_expand :=
        if is_bias = false then ops.tile [K, 1, 1, 1] (ops.unsqueeze 0 coef)
        else ops.tile [K, 1, 1, 1] (ops.unsqueeze 2 (ops.unsqueeze 0 coef))
      let eps := (1e-20 : ℝ)
      let gumbel_sample := ops.trand zero_term
      let gumbel_sample :=
        ops.tneg (ops.tlog (ops.taddScalar
          (ops.tneg (ops.tlog (ops.taddScalar gumbel_sample eps))) eps))
      let coff_expand_softmax := ops.tsoftmax 1 coef_expand
      .tensor (ops.tsoftmax 1
        (ops.tsmul (1 / tau) (ops.tadd (ops.tlog coff_expand_softmax) gumbel_sample)))
    | _ :: _, [] => .assertError
  else .assertError

/-- A concrete interpretation of the tensor operations over `ℕ` (every
operation trivial, `tlen` the number itself), used to instantiate generic
statements about `sample_gumbel` at concrete inputs. -/
def natTensorOps : TensorOps ℕ where
  texp := id
  tsoftplus := id
  tsmul := fun _ t => t
  taddScalar := fun t _ => t
  tadd := fun a _ => a
  tneg := id
  tlog := id
  tsoftmax := fun _ t => t
  unsqueeze := fun _ t => t
  tile := fun _ t => t
  trand := fun _ => 0
  tlen := fun t => t

/-! ### The hyperparameter-search configuration modules

`hpsearch_config_zenke_bbb_mixture.py` and `hpsearch_config_gmm_ssge.py` are
executed top to bottom on import.  Their grid values (numbers, booleans,
strings) are embedded as an inductive literal type; the condition lists
imported from `probabilistic.prob_mnist` modules are not part of the
repository snapshot and enter as abstract parameters.  Module initialization
is embedded as the sequence of assignments actually performed, with the
trailing `assert` turning a failed membership check into `none`. -/

/-- A literal value appearing in a hyperparameter grid. -/
inductive HpVal where
  | b (x : Bool)
  | i (x : ℤ)
  | q (x : ℚ)
  | s (x : String)
deriving DecidableEq

/-- A grid: parameter names mapped to lists of literal values. -/
abbrev HpGrid := List (String × List HpVal)

/-- A search condition: a pair of grid-shaped dictionaries. -/
abbrev HpCondition := HpGrid × HpGrid

/-- The `grid` literal of `hpsearch_config_zenke_bbb_mixture.py` (only the
uncommented entries are part of the dictionary). -/
def zenke_bbb_mixture_grid : HpGrid :=
  [("beta", [.q (1 / 100)]),
   ("cl_scenario", [.i 1]),
   ("use_adam", [.b true]),
   ("radial_bnn", [.b false]),
   ("hnet_type", [.s "hmlp"]),
   ("disable_data_augmentation", [.b true])]

/-- The `grid` literal of `hpsearch_config_gmm_ssge.py`. -/
def gmm_ssge_grid : HpGrid :=
  [("beta", [.q 1]),
   ("use_adam", [.b true]),
   ("imp_hnet_type", [.s "hmlp"]),
   ("hh_hnet_type", [.s "hmlp"]),
   ("full_support_perturbation", [.i (-1)])]

/-- The module-level bindings relevant to the claims after a configuration
module finishes initializing. -/
structure HpSearchConfig where
  grid : HpGrid
  conditions : List HpCondition
  scriptName : String
  performanceKey : String
deriving DecidableEq

/-- Modelled from the spec: the imported module
`probabilistic.prob_mnist.hpsearch_config_split_bbb_mixture` is not in the
repository snapshot, so its `_BASE_CONDITIONS`, `_BBB_CONDITIONS` and
`_SUMMARY_KEYWORDS` are abstract parameters (the spec describes them only as
condition tuples / summary keywords).  The embedding performs the module
statements of `hpsearch_config_zenke_bbb_mixture.py` in order: bind `grid` to
its literal, bind `conditions` to the user list `[]`, rebind `conditions` to
`conditions + _BASE_CONDITIONS + _BBB_CONDITIONS`, bind the remaining
constants, and run the final `assert` on `_PERFORMANCE_KEY`. -/
def runZenkeBbbMixtureConfig (baseConditions bbbConditions : List HpCondition)
    (summaryKeywords : List String) : Option HpSearchConfig :=
  let grid := zenke_bbb_mixture_grid
  let conditions : List HpCondition := []
  let conditions := conditions ++ baseConditions ++ bbbConditions
  let scriptName := "train_zenke_bbb.py"
  let performanceKey := "acc_avg_final"
  if performanceKey ∈ summaryKeywords then
    some { grid := grid, conditions := conditions,
           scriptName := scriptName, performanceKey := performanceKey }
  else none

/-- Modelled from the spec: the imported modules
`probabilistic.prob_mnist.hpsearch_config_split_bbb` and
`probabilistic.prob_mnist.hpsearch_config_split_ssge` are not in the
repository snapshot, so `_BASE_CONDITIONS`, `_SSGE_CONDITIONS` and
`_SUMMARY_KEYWORDS` are abstract parameters.  The embedding performs the
module statements of `hpsearch_config_gmm_ssge.py` in order, exactly as in
`runZenkeBbbMixtureConfig`. -/
def runGmmSsgeConfig (baseConditions ssgeConditions : List HpCondition)
    (summaryKeywords : List String) : Option HpSearchConfig :=
  let grid := gmm_ssge_grid
  let conditions : List HpCondition := []
  let conditions := conditions ++ baseConditions ++ ssgeConditions
  let scriptName := "train_gmm_ssge.py"
  let performanceKey := "acc_avg_final"
  if performanceKey ∈ summaryKeywords then
    some { grid := grid, conditions := conditions,
           scriptName := scriptName, performanceKey := performanceKey }
  else none

/-! ## Helper lemmas -/

theorem zipWith4_nil_left (f : ℝ → ℝ → ℝ → ℝ → ℝ) (b c d : Vec) :
    zipWith4 f [] b c d = [] := by
  cases b <;> cases c <;> cases d <;> rfl

theorem zipWith4_cons (f : ℝ → ℝ → ℝ → ℝ → ℝ) (a b c d : ℝ) (as bs cs ds : Vec) :
    zipWith4 f (a :: as) (b :: bs) (c :: cs) (d :: ds)
      = f a b c d :: zipWith4 f as bs cs ds := rfl

theorem foldl_add_eq_sum (f : ℕ → ℝ) (l : List ℕ) (init : ℝ) :
    l.foldl (fun acc i => acc + f i) init = init + (l.map f).sum := by
  induction l generalizing init with
  | nil => simp
  | cons x xs ih => simp [ih, add_assoc]

theorem map_range_getD {α : Type} (F : Vec → α) (l : List Vec) :
    (List.range l.length).map (fun i => F (l.getD i [])) = l.map F := by
  induction l with
  | nil => rfl
  | cons x xs ih =>
    rw [List.length_cons, List.range_succ_eq_map, List.map_cons, List.map_map,
      List.map_cons]
    refine congrArg₂ _ rfl ?_
    calc (List.range xs.length).map ((fun i => F ((x :: xs).getD i [])) ∘ Nat.succ)
        = (List.range xs.length).map (fun i => F (xs.getD i [])) :=
          List.map_congr_left (fun i _ => by simp)
      _ = xs.map F := ih

/-! ## C1: closed form of `kl_diag_gaussians` -/

theorem kl_diag_terms_eq (ma la mb lb : Vec)
    (h1 : la.length = ma.length) (h2 : mb.length = ma.length)
    (h3 : lb.length = ma.length) :
    vsub (vadd (vaddScalar (-1)
        (vdiv (vadd (vexp la) (vpow2 (vsub mb ma))) (vexp lb))) lb) la
      = zipWith4 (fun m_a l_a m_b l_b =>
          -1 + (Real.exp l_a + (m_b - m_a) ^ 2) / Real.exp l_b + l_b - l_a)
          ma la mb lb := by
  induction ma generalizing la mb lb with
  | nil =>
    rw [List.length_nil, List.length_eq_zero] at h1 h2 h3
    subst h1; subst h2; subst h3
    rfl
  | cons a as ih =>
    match la, h1, mb, h2, lb, h3 with
    | b :: bs, h1, c :: cs, h2, d :: ds, h3 =>
      simp only [List.length_cons, Nat.add_right_cancel_iff] at h1 h2 h3
      simp only [vsub, vadd, vaddScalar, vdiv, vexp, vpow2, List.map_cons,
        List.zipWith_cons_cons, zipWith4_cons] at ih ⊢
      exact congrArg₂ _ rfl (ih bs cs ds h1 h2 h3)

/-- C1: for matching-shape inputs, `kl_diag_gaussians` returns the analytic
KL divergence `0.5 * ∑ j, (-1 + (exp logvar_a_j + (mean_b_j - mean_a_j)²) /
exp logvar_b_j + logvar_b_j - logvar_a_j)` over the flattened and
concatenated tensors. -/
theorem kl_diag_gaussians_closed_form (mean_a logvar_a mean_b logvar_b : List Vec)
    (h1 : (flattenCat logvar_a).length = (flattenCat mean_a).length)
    (h2 : (flattenCat mean_b).length = (flattenCat mean_a).length)
    (h3 : (flattenCat logvar_b).length = (flattenCat mean_a).length) :
    kl_diag_gaussians mean_a logvar_a mean_b logvar_b
      = 0.5 * (zipWith4 (fun m_a l_a m_b l_b =>
          -1 + (Real.exp l_a + (m_b - m_a) ^ 2) / Real.exp l_b + l_b - l_a)
          (flattenCat mean_a) (flattenCat logvar_a)
          (flattenCat mean_b) (flattenCat logvar_b)).sum := by
  dsimp only [kl_diag_gaussians]
  rw [kl_diag_terms_eq _ _ _ _ h1 h2 h3]
  rfl

/-- Closed witness for C1 at a concrete input. -/
theorem kl_diag_gaussians_closed_form_witness :
    kl_diag_gaussians [[(1 : ℝ), 2]] [[0], [0]] [[0, 0]] [[1], [1]]
      = 0.5 * (zipWith4 (fun m_a l_a m_b l_b =>
          -1 + (Real.exp l_a + (m_b - m_a) ^ 2) / Real.exp l_b + l_b - l_a)
          (flattenCat [[(1 : ℝ), 2]]) (flattenCat [[0], [0]])
          (flattenCat [[0, 0]]) (flattenCat [[1], [1]])).sum :=
  kl_diag_gaussians_closed_form [[1, 2]] [[0], [0]] [[0, 0]] [[1], [1]] rfl rfl rfl

/-! ## C2: closed form of `square_wasserstein_2` -/

theorem vnorm2_sq (v : Vec) : vnorm2 v ^ 2 = vsum (vpow2 v) := by
  have h : 0 ≤ vsum (vpow2 v) := by
    apply List.sum_nonneg
    intro x hx
    simp only [vpow2, List.mem_map] at hx
    obtain ⟨y, _, rfl⟩ := hx
    positivity
  simpa [vnorm2] using Real.sq_sqrt h

theorem vpow2_vsub (a b : Vec) :
    vpow2 (vsub a b) = List.zipWith (fun x y => (x - y) ^ 2) a b := by
  simp [vpow2, vsub, List.map_zipWith]

theorem wasserstein_var_terms (la lb : Vec) :
    vsub (vadd (vexp la) (vexp lb)) (vsmul 2 (vsqrt (vmul (vexp la) (vexp lb))))
      = List.zipWith (fun x y =>
          Real.exp x + Real.exp y - 2 * Real.sqrt (Real.exp x * Real.exp y)) la lb := by
  induction la generalizing lb with
  | nil => simp [vsub, vadd, vexp, vmul, vsqrt, vsmul]
  | cons x xs ih =>
    cases lb with
    | nil => simp [vsub, vadd, vexp, vmul, vsqrt, vsmul]
    | cons y ys =>
      simp only [vsub, vadd, vexp, vmul, vsqrt, vsmul, List.map_cons,
        List.zipWith_cons_cons] at ih ⊢
      exact congrArg₂ _ rfl (ih ys)

/-- C2: for matching-shape inputs, `square_wasserstein_2` returns
`∑ j, (mean_a_j - mean_b_j)² + ∑ j, (var_a_j + var_b_j -
2 √(var_a_j var_b_j))` with `var = exp logvar`, over the flattened and
concatenated tensors. -/
theorem square_wasserstein_2_closed_form (mean_a logvar_a mean_b logvar_b : List Vec)
    (h1 : (flattenCat mean_b).length = (flattenCat mean_a).length)
    (h2 : (flattenCat logvar_b).length = (flattenCat logvar_a).length) :
    square_wasserstein_2 mean_a logvar_a mean_b logvar_b
      = (List.zipWith (fun x y => (x - y) ^ 2)
          (flattenCat mean_a) (flattenCat mean_b)).sum
        + (List.zipWith (fun x y =>
            Real.exp x + Real.exp y - 2 * Real.sqrt (Real.exp x * Real.exp y))
            (flattenCat logvar_a) (flattenCat logvar_b)).sum := by
  dsimp only [square_wasserstein_2]
  rw [vnorm2_sq, vpow2_vsub, wasserstein_var_terms]
  rfl

/-- Closed witness for C2 at a concrete input. -/
theorem square_wasserstein_2_closed_form_witness :
    square_wasserstein_2 [[(1 : ℝ)], [2]] [[0, 0]] [[0], [1]] [[1, 1]]
      = (List.zipWith (fun x y => (x - y) ^ 2)
          (flattenCat [[(1 : ℝ)], [2]]) (flattenCat [[0], [1]])).sum
        + (List.zipWith (fun x y =>
            Real.exp x + Real.exp y - 2 * Real.sqrt (Real.exp x * Real.exp y))
            (flattenCat [[(0 : ℝ), 0]]) (flattenCat [[1, 1]])).sum :=
  square_wasserstein_2_closed_form [[1], [2]] [[0, 0]] [[0], [1]] [[1, 1]] rfl rfl

/-! ## C3: `kl_gauss` agrees with `compute_kl` at `sum=False`, `lamb=1`,
`initial_prior_var=0` -/

theorem klGauss_elem_eq (a b c d : ℝ) :
    0.5 * (d - b) + 0.5 * (Real.exp b + (a - c) ^ 2) / Real.exp d - 0.5
      = klGaussSpec a b c d := by
  unfold klGaussSpec
  rw [Real.exp_sub, Real.exp_neg]
  have hd := Real.exp_ne_zero d
  field_simp
  ring

theorem kl_gauss_terms (ma la mb lb : Vec)
    (h1 : la.length = ma.length) (h2 : mb.length = ma.length)
    (h3 : lb.length = ma.length) :
    kl_gauss ma la mb lb = zipWith4 klGaussSpec ma la mb lb := by
  induction ma generalizing la mb lb with
  | nil =>
    rw [List.length_nil, List.length_eq_zero] at h1 h2 h3
    subst h1; subst h2; subst h3
    rfl
  | cons a as ih =>
    match la, h1, mb, h2, lb, h3 with
    | b :: bs, h1, c :: cs, h2, d :: ds, h3 =>
      simp only [List.length_cons, Nat.add_right_cancel_iff] at h1 h2 h3
      simp only [kl_gauss, vsubScalarR, vadd, vsmul, vsub, vdiv, vexp, vpow2,
        List.map_cons, List.zipWith_cons_cons, zipWith4_cons] at ih ⊢
      exact congrArg₂ _ (klGauss_elem_eq a b c d) (ih bs cs ds h1 h2 h3)

theorem compute_kl_elem_scalar (a b c d : ℝ) :
    0.5 * (Real.exp (b - d) + (a - c) ^ 2 * Real.exp (-d) + (d - b) - 1)
      = klGaussSpec a b c d := by
  unfold klGaussSpec
  ring

theorem compute_kl_one_terms (ma la mb lb : Vec)
    (h1 : la.length = ma.length) (h2 : mb.length = ma.length)
    (h3 : lb.length = ma.length) :
    vsmul 0.5 (compute_kl_elem ma la mb lb 1 0) = zipWith4 klGaussSpec ma la mb lb := by
  have hif : ¬((1 : ℚ) ≠ 1) := by norm_num
  induction ma generalizing la mb lb with
  | nil =>
    rw [List.length_nil, List.length_eq_zero] at h1 h2 h3
    subst h1; subst h2; subst h3
    simp only [compute_kl_elem, if_neg hif, vsmul, vsubScalarR, vadd, vexp,
      vsub, vmul, vpow2, vneg, List.map_nil, List.zipWith_nil_left,
      List.zipWith_nil_right]
    rfl
  | cons a as ih =>
    match la, h1, mb, h2, lb, h3 with
    | b :: bs, h1, c :: cs, h2, d :: ds, h3 =>
      simp only [List.length_cons, Nat.add_right_cancel_iff] at h1 h2 h3
      simp only [compute_kl_elem, if_neg hif, vsmul, vsubScalarR, vadd, vexp,
        vsub, vmul, vpow2, vneg, List.map_cons, List.zipWith_cons_cons,
        zipWith4_cons] at ih ⊢
      exact congrArg₂ _ (compute_kl_elem_scalar a b c d) (ih bs cs ds h1 h2 h3)

/-- C3: for matching-shape tensors, `kl_gauss` and
`compute_kl(..., sum=False, lamb=1, initial_prior_var=0)` both compute,
elementwise, the per-element Gaussian KL
`0.5 (exp(logvar_a - logvar_b) + (mean_a - mean_b)² exp(-logvar_b) +
logvar_b - logvar_a - 1)` — in particular they agree elementwise. -/
theorem kl_gauss_eq_compute_kl (ma la mb lb : Vec)
    (h1 : la.length = ma.length) (h2 : mb.length = ma.length)
    (h3 : lb.length = ma.length) :
    kl_gauss ma la mb lb = zipWith4 klGaussSpec ma la mb lb
      ∧ compute_kl ma la mb lb false 1 0 = Sum.inr (zipWith4 klGaussSpec ma la mb lb) := by
  refine ⟨kl_gauss_terms ma la mb lb h1 h2 h3, ?_⟩
  dsimp only [compute_kl]
  rw [if_neg (by simp : ¬(false = true))]
  rw [compute_kl_one_terms ma la mb lb h1 h2 h3]

/-- Closed witness for C3 at a concrete input. -/
theorem kl_gauss_eq_compute_kl_witness :
    kl_gauss [(1 : ℝ), 0] [0, 1] [0, 0] [1, 0]
        = zipWith4 klGaussSpec [(1 : ℝ), 0] [0, 1] [0, 0] [1, 0]
      ∧ compute_kl [(1 : ℝ), 0] [0, 1] [0, 0] [1, 0] false 1 0
        = Sum.inr (zipWith4 klGaussSpec [(1 : ℝ), 0] [0, 1] [0, 0] [1, 0]) :=
  kl_gauss_eq_compute_kl [1, 0] [0, 1] [0, 0] [1, 0] rfl rfl rfl

/-! ## C4: radial sampling draws direction and radius separately, with a
fresh radius per parameter tensor -/

theorem radial_reassoc (s eps : Vec) (r c : ℝ) :
    vdivScalar (vmul (vmulScalarR s r) eps) c
      = vmulScalarR (vmul s (vdivScalar eps c)) r := by
  induction s generalizing eps with
  | nil => simp [vdivScalar, vmul, vmulScalarR]
  | cons x xs ih =>
    cases eps with
    | nil => simp [vdivScalar, vmul, vmulScalarR]
    | cons y ys =>
      simp only [vdivScalar, vmul, vmulScalarR, List.map_cons,
        List.zipWith_cons_cons] at ih ⊢
      exact congrArg₂ _ (by ring) (ih ys)

theorem decoded_std_length (lv : Bool) (ρ : Vec) :
    (if lv then vexp (vsmul 0.5 ρ) else vsoftplus ρ).length = ρ.length := by
  cases lv <;> simp [vexp, vsmul, vsoftplus]

theorem sample_diag_gauss_radial_getD (g : ℕ → ℝ) :
    ∀ (i k : ℕ) (mean std : List Vec), i < mean.length →
      std.length = mean.length →
      (sample_diag_gauss g true k mean std).getD i []
        = vadd (mean.getD i [])
            (vmulScalarR
              (vmul (std.getD i [])
                (vdivScalar (normalVec g (radialOffset k mean i) (mean.getD i []).length)
                  (vnorm2 (normalVec g (radialOffset k mean i) (mean.getD i []).length))))
              (g (radialOffset k mean i + (mean.getD i []).length))) := by
  intro i
  induction i with
  | zero =>
    intro k mean std hi hstd
    match mean, std, hstd with
    | m :: ms, s :: ss, _ =>
      simp only [sample_diag_gauss, if_neg (by simp : ¬(true = false))]
      simp only [List.getD_cons_zero, radialOffset]
      exact congrArg _ (radial_reassoc s (normalVec g k m.length)
        (g (k + m.length)) (vnorm2 (normalVec g k m.length)))
  | succ i ih =>
    intro k mean std hi hstd
    match mean, std, hstd with
    | m :: ms, s :: ss, hstd =>
      simp only [List.length_cons, Nat.add_lt_add_iff_right,
        Nat.add_right_cancel_iff] at hi hstd
      simp only [sample_diag_gauss, if_neg (by simp : ¬(true = false))]
      simp only [List.getD_cons_succ, radialOffset]
      exact ih (k + m.length + 1) ms ss hi hstd

theorem decode_and_sample_eq_sample (g : ℕ → ℝ) (lv : Bool) :
    ∀ (k : ℕ) (mean rho : List Vec), rho.length = mean.length →
      (∀ j, j < mean.length → (rho.getD j []).length = (mean.getD j []).length) →
      decode_and_sample_diag_gauss g lv true k mean rho
        = sample_diag_gauss g true k mean
            (rho.map (fun ρ => if lv then vexp (vsmul 0.5 ρ) else vsoftplus ρ)) := by
  intro k mean
  induction mean generalizing k with
  | nil => intro rho _ _; rfl
  | cons m ms ih =>
    intro rho hlen hshape
    match rho, hlen with
    | ρ :: ρs, hlen =>
      simp only [List.length_cons, Nat.add_right_cancel_iff] at hlen
      have h0 : (ρ :: ρs).getD 0 [] = ρ := rfl
      have hρ : ρ.length = m.length := by
        have := hshape 0 (by simp)
        simpa using this
      simp only [decode_and_sample_diag_gauss, sample_diag_gauss, List.map_cons,
        if_neg (by simp : ¬(true = false)), decoded_std_length, hρ]
      refine congrArg₂ _ rfl ?_
      exact ih (k + m.length + 1) ρs hlen (fun j hj => by
        have := hshape (j + 1) (by simpa using Nat.succ_lt_succ hj)
        simpa using this)

/-- C4: with `is_radial=True`, for every index `i` into matching-shape
lists, the sample is `mean[i] + std[i] * (eps / ‖eps‖₂) * r`, where `eps` is
the block of fresh standard-normal draws of the shape of `mean[i]` taken at
the generator position reached for tensor `i`, and the radius `r` is the
single fresh draw taken right after `eps` — so the radius is resampled for
every parameter tensor and direction and radius are sampled separately.
Moreover `decode_and_sample_diag_gauss` produces the same samples as
`sample_diag_gauss` applied to the standard deviations decoded from `rho`. -/
theorem radial_sampling_structure (g : ℕ → ℝ) (k i : ℕ)
    (mean std rho : List Vec) (lv : Bool)
    (hi : i < mean.length)
    (hstd : std.length = mean.length)
    (hrho : rho.length = mean.length)
    (hshape : ∀ j, j < mean.length → (rho.getD j []).length = (mean.getD j []).length) :
    (sample_diag_gauss g true k mean std).getD i []
      = vadd (mean.getD i [])
          (vmulScalarR
            (vmul (std.getD i [])
              (vdivScalar (normalVec g (radialOffset k mean i) (mean.getD i []).length)
                (vnorm2 (normalVec g (radialOffset k mean i) (mean.getD i []).length))))
            (g (radialOffset k mean i + (mean.getD i []).length)))
    ∧ decode_and_sample_diag_gauss g lv true k mean rho
        = sample_diag_gauss g true k mean
            (rho.map (fun ρ => if lv then vexp (vsmul 0.5 ρ) else vsoftplus ρ)) :=
  ⟨sample_diag_gauss_radial_getD g i k mean std hi hstd,
   decode_and_sample_eq_sample g lv k mean rho hrho hshape⟩

/-- Closed witness for C4 at a concrete input. -/
theorem radial_sampling_structure_witness :
    ((sample_diag_gauss (fun n => (n : ℝ) + 1) true 0 [[(0 : ℝ), 0], [1]] [[1, 1], [2]]).getD 1 []
      = vadd ([[(0 : ℝ), 0], [1]].getD 1 [])
          (vmulScalarR
            (vmul ([[(1 : ℝ), 1], [2]].getD 1 [])
              (vdivScalar (normalVec (fun n => (n : ℝ) + 1)
                  (radialOffset 0 [[(0 : ℝ), 0], [1]] 1) ([[(0 : ℝ), 0], [1]].getD 1 []).length)
                (vnorm2 (normalVec (fun n => (n : ℝ) + 1)
                  (radialOffset 0 [[(0 : ℝ), 0], [1]] 1) ([[(0 : ℝ), 0], [1]].getD 1 []).length))))
            (((radialOffset 0 [[(0 : ℝ), 0], [1]] 1
                + ([[(0 : ℝ), 0], [1]].getD 1 []).length : ℕ) : ℝ) + 1)))
    ∧ decode_and_sample_diag_gauss (fun n => (n : ℝ) + 1) true true 0
        [[(0 : ℝ), 0], [1]] [[0, 0], [0]]
      = sample_diag_gauss (fun n => (n : ℝ) + 1) true 0 [[(0 : ℝ), 0], [1]]
          ([[(0 : ℝ), 0], [0]].map (fun ρ =>
            if true then vexp (vsmul 0.5 ρ) else vsoftplus ρ)) :=
  radial_sampling_structure (fun n => (n : ℝ) + 1) 0 1
    [[0, 0], [1]] [[1, 1], [2]] [[0, 0], [0]] true
    (by decide) rfl rfl (by decide)

/-! ## C5: `kl_radial_bnn_with_diag_gauss` is the analytic entropy term minus
the averaged Monte-Carlo cross-entropy estimate -/

theorem ceLoop_eq_sum (g : ℕ → ℝ) (mean_a std_a mean_b std_b : List Vec) :
    ∀ (N k : ℕ),
      ceLoop g mean_a std_a mean_b std_b k N
        = ((List.range N).map (fun n =>
            logProbSumList mean_b std_b
              (sample_diag_gauss g true (k + n * radialDrawCount mean_a)
                mean_a std_a))).sum := by
  intro N
  induction N with
  | zero => intro k; simp [ceLoop]
  | succ N ih =>
    intro k
    rw [ceLoop, ih (k + radialDrawCount mean_a), List.range_succ_eq_map,
      List.map_cons, List.sum_cons, List.map_map]
    refine congrArg₂ _ (by simp) ?_
    refine congrArg _ (List.map_congr_left (fun n _ => ?_))
    simp only [Function.comp]
    have harith : k + (n + 1) * radialDrawCount mean_a
        = k + radialDrawCount mean_a + n * radialDrawCount mean_a := by ring
    rw [harith]

/-- C5: for `ce_sample_size = N ≥ 1`, the function returns
`(-∑ j, log std_a_j) - (1/N) ∑ n, ∑ i, ∑ elements, log N(sample⁽ⁿ⁾_i ;
mean_b_i, std_b_i)`, where sample `n` is drawn by `sample_diag_gauss` with
`is_radial=True` at the generator position reached after the first `n` radial
draws. -/
theorem kl_radial_bnn_closed_form (g : ℕ → ℝ) (k : ℕ)
    (mean_a std_a mean_b std_b : List Vec) (N : ℕ)
    (hN : 1 ≤ N) (hlen : std_a.length = mean_a.length) :
    kl_radial_bnn_with_diag_gauss g k mean_a std_a mean_b std_b N
      = (-((flattenCat std_a).map Real.log).sum)
        - (1 / (N : ℝ)) * ((List.range N).map (fun n =>
            ((List.range mean_b.length).map (fun i =>
              (zipWith3 normalLogProb (mean_b.getD i []) (std_b.getD i [])
                ((sample_diag_gauss g true (k + n * radialDrawCount mean_a)
                  mean_a std_a).getD i [])).sum)).sum)).sum := by
  dsimp only [kl_radial_bnn_with_diag_gauss]
  rw [ceLoop_eq_sum]
  simp only [logProbSumList, vsum, vlog]
  ring

/-- Closed witness for C5 at a concrete input. -/
theorem kl_radial_bnn_closed_form_witness :
    kl_radial_bnn_with_diag_gauss (fun _ => (1 : ℝ)) 0 [[(0 : ℝ)]] [[1]] [[0]] [[1]] 1
      = (-((flattenCat [[(1 : ℝ)]]).map Real.log).sum)
        - (1 / ((1 : ℕ) : ℝ)) * ((List.range 1).map (fun n =>
            ((List.range ([[(0 : ℝ)]] : List Vec).length).map (fun i =>
              (zipWith3 normalLogProb (([[(0 : ℝ)]] : List Vec).getD i [])
                (([[(1 : ℝ)]] : List Vec).getD i [])
                ((sample_diag_gauss (fun _ => (1 : ℝ)) true
                  (0 + n * radialDrawCount [[(0 : ℝ)]])
                  [[(0 : ℝ)]] [[1]]).getD i [])).sum)).sum)).sum :=
  kl_radial_bnn_closed_form (fun _ => 1) 0 [[0]] [[1]] [[0]] [[1]] 1
    (by decide) rfl

/-! ## C6: the configuration modules only concatenate the condition lists and
leave the grid literals untouched -/

/-- C6: whenever a configuration module finishes initializing (the final
assert passes), its `conditions` value is the user list (empty in both files)
concatenated with the imported base-condition lists, in order, and its `grid`
value is still the literal dictionary from the top of the module. -/
theorem hpsearch_config_init (base1 bbb base2 ssge : List HpCondition)
    (kw1 kw2 : List String) (cfg1 cfg2 : HpSearchConfig) :
    (runZenkeBbbMixtureConfig base1 bbb kw1 = some cfg1 →
      cfg1.conditions = ([] : List HpCondition) ++ base1 ++ bbb
        ∧ cfg1.grid = zenke_bbb_mixture_grid)
    ∧ (runGmmSsgeConfig base2 ssge kw2 = some cfg2 →
      cfg2.conditions = ([] : List HpCondition) ++ base2 ++ ssge
        ∧ cfg2.grid = gmm_ssge_grid) := by
  constructor
  · intro h
    dsimp only [runZenkeBbbMixtureConfig] at h
    split at h
    · injection h with h
      subst h
      exact ⟨rfl, rfl⟩
    · exact absurd h (by simp)
  · intro h
    dsimp only [runGmmSsgeConfig] at h
    split at h
    · injection h with h
      subst h
      exact ⟨rfl, rfl⟩
    · exact absurd h (by simp)

/-- Closed witness for C6: both modules run to completion on concrete
parameters. -/
theorem hpsearch_config_init_witness :
    ((HpSearchConfig.mk zenke_bbb_mixture_grid [] "train_zenke_bbb.py"
        "acc_avg_final").conditions = ([] : List HpCondition) ++ [] ++ []
      ∧ (HpSearchConfig.mk zenke_bbb_mixture_grid [] "train_zenke_bbb.py"
        "acc_avg_final").grid = zenke_bbb_mixture_grid)
    ∧ ((HpSearchConfig.mk gmm_ssge_grid [] "train_gmm_ssge.py"
        "acc_avg_final").conditions = ([] : List HpCondition) ++ [] ++ []
      ∧ (HpSearchConfig.mk gmm_ssge_grid [] "train_gmm_ssge.py"
        "acc_avg_final").grid = gmm_ssge_grid) :=
  ⟨(hpsearch_config_init [] [] [] [] ["acc_avg_final"] ["acc_avg_final"]
      (HpSearchConfig.mk zenke_bbb_mixture_grid [] "train_zenke_bbb.py" "acc_avg_final")
      (HpSearchConfig.mk gmm_ssge_grid [] "train_gmm_ssge.py" "acc_avg_final")).1 rfl,
   (hpsearch_config_init [] [] [] [] ["acc_avg_final"] ["acc_avg_final"]
      (HpSearchConfig.mk zenke_bbb_mixture_grid [] "train_zenke_bbb.py" "acc_avg_final")
      (HpSearchConfig.mk gmm_ssge_grid [] "train_gmm_ssge.py" "acc_avg_final")).2 rfl⟩

/-! ## C7: `upperbound_kl_mixture_gauss` computes the standard mixture KL
upper bound, independently of `compute_coef` -/

theorem vsum_vsmul (c : ℝ) (v : Vec) : vsum (vsmul c v) = c * vsum v := by
  induction v with
  | nil => simp [vsum, vsmul]
  | cons x xs ih =>
    simp only [vsum, vsmul, List.map_cons, List.sum_cons] at ih ⊢
    rw [ih]
    ring

/-- C7: for mixtures with matching-shape components, the function returns
`∑ i, (ca_i (log ca_i - log cb_i) + ca_i ∑ j, klGaussSpec ...)` where `ca`
and `cb` are the softmax of the coefficient logits — and this closed form
does not mention `compute_coef`, so the (unused) `compute_coef` call cannot
influence the result. -/
theorem upperbound_kl_mixture_gauss_closed_form (a b : MixtureGauss)
    (hshape : ∀ i, i < a.means.length →
      (a.logvars.getD i []).length = (a.means.getD i []).length
        ∧ (b.means.getD i []).length = (a.means.getD i []).length
        ∧ (b.logvars.getD i []).length = (a.means.getD i []).length) :
    upperbound_kl_mixture_gauss a b
      = ((List.range a.means.length).map (fun i =>
          (softmaxV a.coefLogits).getD i 0 *
            (Real.log ((softmaxV a.coefLogits).getD i 0)
              - Real.log ((softmaxV b.coefLogits).getD i 0))
          + (softmaxV a.coefLogits).getD i 0 *
              (zipWith4 klGaussSpec (a.means.getD i []) (a.logvars.getD i [])
                (b.means.getD i []) (b.logvars.getD i [])).sum)).sum := by
  dsimp only [upperbound_kl_mixture_gauss]
  rw [List.foldl_ext _ (fun acc i => acc +
      ((softmaxV a.coefLogits).getD i 0 *
        (Real.log ((softmaxV a.coefLogits).getD i 0)
          - Real.log ((softmaxV b.coefLogits).getD i 0))
      + vsum (vsmul ((softmaxV a.coefLogits).getD i 0)
          (kl_gauss (a.means.getD i []) (a.logvars.getD i [])
            (b.means.getD i []) (b.logvars.getD i [])))))
    0 (fun acc i _ => by ring)]
  rw [foldl_add_eq_sum, zero_add]
  refine congrArg _ (List.map_congr_left (fun i hi => ?_))
  rw [List.mem_range] at hi
  obtain ⟨hs1, hs2, hs3⟩ := hshape i hi
  rw [kl_gauss_terms _ _ _ _ hs1 hs2 hs3, vsum_vsmul]
  rfl

/-- Closed witness for C7 at a concrete pair of one-component mixtures. -/
theorem upperbound_kl_mixture_gauss_closed_form_witness :
    upperbound_kl_mixture_gauss ⟨[[0]], [[0]], [0]⟩ ⟨[[1]], [[0]], [0]⟩
      = ((List.range ([[(0 : ℝ)]] : List Vec).length).map (fun i =>
          (softmaxV [(0 : ℝ)]).getD i 0 *
            (Real.log ((softmaxV [(0 : ℝ)]).getD i 0)
              - Real.log ((softmaxV [(0 : ℝ)]).getD i 0))
          + (softmaxV [(0 : ℝ)]).getD i 0 *
              (zipWith4 klGaussSpec (([[(0 : ℝ)]] : List Vec).getD i [])
                (([[(0 : ℝ)]] : List Vec).getD i [])
                (([[(1 : ℝ)]] : List Vec).getD i [])
                (([[(0 : ℝ)]] : List Vec).getD i [])).sum)).sum :=
  upperbound_kl_mixture_gauss_closed_form ⟨[[0]], [[0]], [0]⟩ ⟨[[1]], [[0]], [0]⟩
    (by decide)

/-! ## C8: the analytic helpers are deterministic functions of their inputs

In this embedding every `prob_utils` function is a pure function of its
arguments — the Python code could be translated without any ambient state
precisely because it never mutates its inputs or module-level state — and
determinism is the statement that equal inputs give equal outputs. -/

/-- C8: the purely analytic functions of `prob_utils` (`kl_diag_gaussians`,
`kl_diag_gauss_with_standard_gauss`, `square_wasserstein_2`, `compute_kl`,
`kl_gauss`, `kl_mixture_gauss`, `upperbound_kl_mixture_gauss`,
`compute_coef`, `decode_diag_gauss`) are deterministic: any two calls with
equal inputs return equal results. -/
theorem prob_utils_analytic_deterministic :
    (∀ a b c d a2 b2 c2 d2 : List Vec, a = a2 → b = b2 → c = c2 → d = d2 →
      kl_diag_gaussians a b c d = kl_diag_gaussians a2 b2 c2 d2)
    ∧ (∀ a b a2 b2 : List Vec, a = a2 → b = b2 →
      kl_diag_gauss_with_standard_gauss a b = kl_diag_gauss_with_standard_gauss a2 b2)
    ∧ (∀ a b c d a2 b2 c2 d2 : List Vec, a = a2 → b = b2 → c = c2 → d = d2 →
      square_wasserstein_2 a b c d = square_wasserstein_2 a2 b2 c2 d2)
    ∧ (∀ (a b c d : Vec) (s : Bool) (l p : ℚ) (a2 b2 c2 d2 : Vec) (s2 : Bool)
        (l2 p2 : ℚ), a = a2 → b = b2 → c = c2 → d = d2 → s = s2 → l = l2 → p = p2 →
      compute_kl a b c d s l p = compute_kl a2 b2 c2 d2 s2 l2 p2)
    ∧ (∀ a b c d a2 b2 c2 d2 : Vec, a = a2 → b = b2 → c = c2 → d = d2 →
      kl_gauss a b c d = kl_gauss a2 b2 c2 d2)
    ∧ (∀ (x y x2 y2 : MixtureGauss) (n n2 : ℕ) (l l2 : ℚ),
        x = x2 → y = y2 → n = n2 → l = l2 →
      kl_mixture_gauss x y n l = kl_mixture_gauss x2 y2 n2 l2)
    ∧ (∀ x y x2 y2 : MixtureGauss, x = x2 → y = y2 →
      upperbound_kl_mixture_gauss x y = upperbound_kl_mixture_gauss x2 y2)
    ∧ (∀ n n2 : ℕ, n = n2 → compute_coef n = compute_coef n2)
    ∧ (∀ (ρ ρ2 : List Vec) (e v w e2 v2 w2 : Bool),
        ρ = ρ2 → e = e2 → v = v2 → w = w2 →
      decode_diag_gauss ρ e v w = decode_diag_gauss ρ2 e2 v2 w2) := by
  refine ⟨?_, ?_, ?_, ?_, ?_, ?_, ?_, ?_, ?_⟩ <;> intros <;> subst_vars <;> rfl

/-- Closed witness for C8: two calls of `kl_diag_gaussians` on equal concrete
inputs agree. -/
theorem prob_utils_analytic_deterministic_witness :
    kl_diag_gaussians [[(1 : ℝ)]] [[0]] [[0]] [[0]]
      = kl_diag_gaussians [[(1 : ℝ)]] [[0]] [[0]] [[0]] :=
  prob_utils_analytic_deterministic.1 [[1]] [[0]] [[0]] [[0]] [[1]] [[0]] [[0]] [[0]]
    rfl rfl rfl rfl

/-! ## C9: `sample_gumbel` returns from inside the first loop iteration -/

/-- C9: for a non-empty `mean` list satisfying the length assertion,
`sample_gumbel` returns during the first loop iteration: the result is the
single tensor `softmax₁((1/tau) * (log softmax₁(tiled coef) + gumbel))`
computed from the coefficient logits alone — the tensors at indices 1 and
above (`ms`, `ρs`) do not appear in the result — and for an empty `mean`
list it returns the initial empty sample list. -/
theorem sample_gumbel_first_iteration {T : Type} (ops : TensorOps T) (lv : Bool)
    (m ρ coef coef0 : T) (ms ρs : List T) (tau : ℝ)
    (gm K din dout : ℕ) (ib : Bool)
    (h1 : (m :: ms).length = (ρ :: ρs).length)
    (h2 : (m :: ms).length = ops.tlen coef)
    (h3 : ops.tlen coef0 = 0) :
    sample_gumbel ops lv (m :: ms) (ρ :: ρs) coef tau gm K din dout ib
      = GumbelResult.tensor (ops.tsoftmax 1 (ops.tsmul (1 / tau)
          (ops.tadd
            (ops.tlog (ops.tsoftmax 1
              (if ib = false then ops.tile [K, 1, 1, 1] (ops.unsqueeze 0 coef)
               else ops.tile [K, 1, 1, 1] (ops.unsqueeze 2 (ops.unsqueeze 0 coef)))))
            (ops.tneg (ops.tlog (ops.taddScalar
              (ops.tneg (ops.tlog (ops.taddScalar
                (ops.trand (if ib = false then [K, gm, din, dout] else [K, gm, 1, dout]))
                1e-20)))
              1e-20))))))
    ∧ sample_gumbel ops lv [] [] coef0 tau gm K din dout ib
        = GumbelResult.emptyList := by
  constructor
  · dsimp only [sample_gumbel]
    rw [if_pos ⟨h1, h2⟩]
  · dsimp only [sample_gumbel]
    rw [if_pos ⟨rfl, h3.symm⟩]

/-- Closed witness for C9 at a concrete interpretation of the tensor
operations. -/
theorem sample_gumbel_first_iteration_witness :
    sample_gumbel natTensorOps true [0] [0] 1 1 1 1 1 1 false
      = GumbelResult.tensor (natTensorOps.tsoftmax 1 (natTensorOps.tsmul (1 / 1)
          (natTensorOps.tadd
            (natTensorOps.tlog (natTensorOps.tsoftmax 1
              (if false = false then natTensorOps.tile [1, 1, 1, 1] (natTensorOps.unsqueeze 0 1)
               else natTensorOps.tile [1, 1, 1, 1]
                (natTensorOps.unsqueeze 2 (natTensorOps.unsqueeze 0 1)))))
            (natTensorOps.tneg (natTensorOps.tlog (natTensorOps.taddScalar
              (natTensorOps.tneg (natTensorOps.tlog (natTensorOps.taddScalar
                (natTensorOps.trand (if false = false then [1, 1, 1, 1] else [1, 1, 1, 1]))
                1e-20)))
              1e-20))))))
    ∧ sample_gumbel natTensorOps true [] [] 0 1 1 1 1 1 false
        = GumbelResult.emptyList :=
  sample_gumbel_first_iteration natTensorOps true 0 0 1 0 [] [] 1 1 1 1 1 false
    rfl rfl rfl

/-! ## C10: `extract_mean_std` and `sample_diag_gaus_from_hnet` split the
hypernet output into log-variance first half and mean second half -/

theorem hnetSampleLoop_eq_sample (g : ℕ → ℝ) :
    ∀ (k : ℕ) (mu lv : List Vec),
      hnetSampleLoop g k mu lv
        = sample_diag_gauss g false k mu (lv.map (fun t => vexp (vsmul 0.5 t))) := by
  intro k mu
  induction mu generalizing k with
  | nil => intro lv; rfl
  | cons m ms ih =>
    intro lv
    cases lv with
    | nil => rfl
    | cons l ls =>
      simp only [hnetSampleLoop, List.map_cons, sample_diag_gauss,
        if_pos (rfl : (false : Bool) = false)]
      exact congrArg₂ _ rfl (ih (k + m.length) ls)

theorem vexpHalf_as_map (ρ : Vec) :
    vexp (vsmul 0.5 ρ) = ρ.map (fun x => Real.exp (0.5 * x)) := by
  simp [vexp, vsmul, List.map_map, Function.comp]

/-- C10: for an even-length `hnet_outputs` of length `2n`, `extract_mean_std`
returns `mean = hnet_outputs[n:]`, `std = [exp(0.5*t) for t in
hnet_outputs[:n]]` (plus `logvar = hnet_outputs[:n]` when `return_logvar`),
and it fails the assertion exactly when the length is odd;
`sample_diag_gaus_from_hnet` splits identically (`mu` from the second half,
`logvar` from the first half) under the same assertion, and samples as
`sample_diag_gauss` on the decoded standard deviations. -/
theorem extract_and_sample_hnet_split (g : ℕ → ℝ) (hnet : List Vec) (rlv : Bool) :
    (extract_mean_std hnet rlv
      = if hnet.length % 2 = 0 then
          some (hnet.drop (hnet.length / 2),
            (hnet.take (hnet.length / 2)).map (fun t => t.map (fun x => Real.exp (0.5 * x))),
            if rlv then some (hnet.take (hnet.length / 2)) else none)
        else none)
    ∧ (sample_diag_gaus_from_hnet g hnet
      = if hnet.length % 2 = 0 then
          some (sample_diag_gauss g false 0 (hnet.drop (hnet.length / 2))
            ((hnet.take (hnet.length / 2)).map (fun t => vexp (vsmul 0.5 t))))
        else none) := by
  constructor
  · dsimp only [extract_mean_std]
    split
    · have hlen : (hnet.take (hnet.length / 2)).length = hnet.length / 2 := by
        simp [Nat.min_eq_left (Nat.div_le_self _ _)]
      refine congrArg _ (congrArg _ (congrArg₂ _ ?_ rfl))
      calc (List.range (hnet.length / 2)).map
            (fun i => vexp (vsmul 0.5 ((hnet.take (hnet.length / 2)).getD i [])))
          = (List.range (hnet.take (hnet.length / 2)).length).map
            (fun i => vexp (vsmul 0.5 ((hnet.take (hnet.length / 2)).getD i []))) := by
            rw [hlen]
        _ = (hnet.take (hnet.length / 2)).map (fun t => vexp (vsmul 0.5 t)) :=
            map_range_getD (fun t => vexp (vsmul 0.5 t)) _
        _ = (hnet.take (hnet.length / 2)).map
            (fun t => t.map (fun x => Real.exp (0.5 * x))) :=
            List.map_congr_left (fun t _ => vexpHalf_as_map t)
    · rfl
  · dsimp only [sample_diag_gaus_from_hnet]
    split
    · rw [hnetSampleLoop_eq_sample]
    · rfl

end

end GMM
